import Mathlib

/-! Three command-line utilities: probe-and-print, JSON poster, synonym CLI

A verification development over a shallow embedding of the three `main`
functions of the repository (`ping/main.go`, `post-json/main.go`,
`synonyms/main.go`).

Each program is embedded as a function from its environment (what the
operating system, the subprocess, the HTTP endpoint or the thesaurus service
answer) to an outcome: exit code, text written to standard output, text
written to the log, and the externally visible events in order.
-/

/-! ## Shared process model -/

/-- Final observable state of one run of a program. -/
structure Outcome where
  /-- Process exit status: `0` for `os.Exit(0)` or a return from `main`,
  `1` for `log.Fatal` and `log.Fatalln`. -/
  exitCode : Nat
  /-- Everything written to standard output. -/
  stdout : String
  /-- Everything written by the standard logger (without its timestamp). -/
  stderr : String
deriving DecidableEq, Repr

/-- Effect of `fmt.Println(s)` on standard output: the operand, then a newline. -/
def println (out : String) (s : String) : String :=
  out ++ s ++ "\n"

/-- Text made of the given lines, each followed by a newline. -/
def textOf : List String → String
  | [] => ""
  | s :: rest => s ++ "\n" ++ textOf rest

/-! ## Probe-and-print (`ping/main.go`) -/

namespace Ping

/-- Result of one call of `bufio.Reader.ReadLine` that returns. The library
returns either a line (with the flag saying the line did not fit the buffer)
or an error, never both; at the end of the stream the error is `io.EOF`. The
line is a string of bytes, each byte standing as the character of its code. -/
inductive ReadLineResult where
  | data (line : String) (isPrefix : Bool)
  | failed (err : String)
deriving DecidableEq, Repr

/-- First return value of `ReadLine`: the line, `nil` on an error. -/
def ReadLineResult.line : ReadLineResult → String
  | .data l _ => l
  | .failed _ => ""

/-- What the operating system and the subprocess answer during one run in
which every call of `ReadLine` returns. -/
structure Env where
  /-- Error of `cmd.StdoutPipe()`, `none` when the stream is obtained. -/
  pipeErr : Option String
  /-- Error of `cmd.Start()`, `none` when the subprocess starts. -/
  startErr : Option String
  /-- Result of the `k`-th call (from 0) of `buf.ReadLine()`. -/
  readLine : Nat → ReadLineResult

/-- State of the read loop: the counter `num`, the number of `ReadLine`
calls made so far and the text printed so far. -/
structure LoopState where
  num : Nat
  reads : Nat
  stdout : String
deriving DecidableEq, Repr

/-- Outcome of the probe program together with the number of reads made. -/
structure Result where
  outcome : Outcome
  reads : Nat
deriving DecidableEq, Repr

/-- The `for` loop of `main`: read a line, leave with `os.Exit(0)` once
`num > 3`, otherwise count and print the line. `fuel` bounds the number of
iterations; `none` means the bound was reached before the program ended. -/
def loop (readLine : Nat → ReadLineResult) : Nat → LoopState → Option Result
  | 0, _ => none
  | fuel + 1, st =>
    let line := (readLine st.reads).line
    if st.num > 3 then
      some ⟨⟨0, st.stdout, ""⟩, st.reads + 1⟩
    else
      loop readLine fuel ⟨st.num + 1, st.reads + 1, println st.stdout line⟩

/-- The program `main` of `ping/main.go` when every read returns. -/
def main (env : Env) (fuel : Nat) : Option Result :=
  match env.pipeErr with
  | some err => some ⟨⟨1, "", err ++ "\n"⟩, 0⟩
  | none =>
    -- `cmd.Start()`: its error is dropped
    loop env.readLine fuel ⟨0, 0, ""⟩

/-- Size in bytes of the buffer of `bufio.NewReader`. -/
def defaultBufSize : Nat := 4096

/-- The output of the subprocess as the reader finds it: all the bytes the
subprocess writes, and whether it then closes its output (reads at the end
return `io.EOF`) or stays alive without writing (reads at the end wait for
ever). -/
structure Source where
  bytes : List UInt8
  closes : Bool

/-- What one call of `buf.ReadLine()` does: it returns, or it never returns
because the stream is open and has no more bytes to give. -/
inductive ReadStep where
  | returned (r : ReadLineResult)
  | blocked
deriving DecidableEq, Repr

/-- The Go conversion `string(line)`: the same bytes, each standing as the
character of its code. -/
def bytesToString (bs : List UInt8) : String :=
  String.mk (bs.map fun b => Char.ofNat b.toNat)

/-- Search of the first `n` unread bytes for the newline byte: the bytes
before it and the bytes after it, `none` when it is not among them. -/
def findLine : Nat → List UInt8 → Option (List UInt8 × List UInt8)
  | 0, _ => none
  | _ + 1, [] => none
  | n + 1, b :: rest =>
    if b = 10 then some ([], rest)
    else
      match findLine n rest with
      | some (l, r) => some (b :: l, r)
      | none => none

/-- A line without the carriage return that ends it, if there is one. -/
def trimCR (l : List UInt8) : List UInt8 :=
  if l.getLast? = some 13 then l.dropLast else l

/-- One call of `bufio.Reader.ReadLine` on the unread bytes `rem`, and the
bytes left unread. A newline among the first 4096 bytes ends a line, returned
without its `\n` or `\r\n`. Without one, 4096 unread bytes fill the buffer and
come back as a piece with the prefix flag set, a carriage return at the end of
the piece staying unread. With fewer bytes the call takes what is left when
the stream has ended, `io.EOF` if nothing is left, and waits for ever when the
stream is still open. -/
def readLineStep (closes : Bool) (rem : List UInt8) : ReadStep × List UInt8 :=
  match findLine defaultBufSize rem with
  | some (l, rest) => (.returned (.data (bytesToString (trimCR l)) false), rest)
  | none =>
    if defaultBufSize ≤ rem.length then
      if (rem.take defaultBufSize).getLast? = some 13 then
        (.returned (.data (bytesToString (rem.take (defaultBufSize - 1))) true),
          rem.drop (defaultBufSize - 1))
      else
        (.returned (.data (bytesToString (rem.take defaultBufSize)) true),
          rem.drop defaultBufSize)
    else if closes then
      if rem = [] then (.returned (.failed "EOF"), [])
      else (.returned (.data (bytesToString rem) false), [])
    else (.blocked, rem)

/-- The `k`-th call (from 0) of `ReadLine` on a stream with unread bytes `rem`. -/
def readLineFrom (closes : Bool) : List UInt8 → Nat → ReadStep
  | rem, 0 => (readLineStep closes rem).1
  | rem, k + 1 => readLineFrom closes (readLineStep closes rem).2 k

/-- What the operating system and the subprocess answer during one run, reads
that never return included. -/
structure World where
  /-- Error of `cmd.StdoutPipe()`, `none` when the stream is obtained. -/
  pipeErr : Option String
  /-- Error of `cmd.Start()`, `none` when the subprocess starts. -/
  startErr : Option String
  /-- What the `k`-th call (from 0) of `buf.ReadLine()` does. -/
  readLine : Nat → ReadStep

/-- How a run stands: the program has left with a result, or it waits for
ever inside a call of `ReadLine`, after that many calls and with that text
printed. -/
inductive Run where
  | exited (r : Result)
  | waiting (reads : Nat) (stdout : String)
deriving DecidableEq, Repr

/-- The `for` loop of `main` when a read may never return: as `loop`, and a
read that does not return keeps the program in that call. -/
def runLoop (readLine : Nat → ReadStep) : Nat → LoopState → Option Run
  | 0, _ => none
  | fuel + 1, st =>
    match readLine st.reads with
    | .blocked => some (.waiting (st.reads + 1) st.stdout)
    | .returned r =>
      let line := r.line
      if st.num > 3 then
        some (.exited ⟨⟨0, st.stdout, ""⟩, st.reads + 1⟩)
      else
        runLoop readLine fuel ⟨st.num + 1, st.reads + 1, println st.stdout line⟩

/-- The program `main` of `ping/main.go` when a read may never return. -/
def run (w : World) (fuel : Nat) : Option Run :=
  match w.pipeErr with
  | some err => some (.exited ⟨⟨1, "", err ++ "\n"⟩, 0⟩)
  | none =>
    -- `cmd.Start()`: its error is dropped
    runLoop w.readLine fuel ⟨0, 0, ""⟩

/-- The world of a run whose stream is obtained and carries the bytes of
`src`. -/
def sourceWorld (src : Source) : World :=
  ⟨none, none, readLineFrom src.closes src.bytes⟩

/-- The world of an environment in which every read returns. -/
def Env.toWorld (env : Env) : World :=
  ⟨env.pipeErr, env.startErr, fun k => .returned (env.readLine k)⟩

/-- The bytes of a stream made of the given lines, each ended by a newline. -/
def joinLines (lines : List (List UInt8)) : List UInt8 :=
  lines.flatMap fun l => l ++ [10]

end Ping

/-! ## Streaming JSON poster (`post-json/main.go`) -/

namespace PostJson

/-- The record `PayLoad` of the source: one text field. -/
structure PayLoad where
  Content : String
deriving DecidableEq, Repr

/-- Lower-case hexadecimal digit of a number below 16. -/
def hexDigit (n : Nat) : Char :=
  "0123456789abcdef".data.getD n '0'

/-- How `encoding/json` writes one character inside a JSON string, with its
default HTML escaping: quote and backslash get a backslash, the usual control
characters their short form, other characters below U+0020 and `<`, `>`, `&`,
U+2028, U+2029 the form `\u` with four hex digits, the rest is copied. The
short forms of backspace and form feed are those of Go 1.22 and later; earlier
versions write them with `\u`. -/
def escapeChar (c : Char) : List Char :=
  if c = '"' ∨ c = '\\' then ['\\', c]
  else if c = Char.ofNat 8 then ['\\', 'b']
  else if c = Char.ofNat 12 then ['\\', 'f']
  else if c = '\n' then ['\\', 'n']
  else if c = '\r' then ['\\', 'r']
  else if c = '\t' then ['\\', 't']
  else if c.toNat < 32 ∨ c = '<' ∨ c = '>' ∨ c = '&' then
    ['\\', 'u', '0', '0', hexDigit (c.toNat / 16), hexDigit (c.toNat % 16)]
  else if c.toNat = 8232 ∨ c.toNat = 8233 then
    ['\\', 'u', '2', '0', '2', hexDigit (c.toNat % 16)]
  else [c]

/-- JSON text of a Go string: the escaped characters between double quotes. -/
def encodeString (s : String) : String :=
  String.mk ('"' :: (s.data.flatMap escapeChar ++ ['"']))

/-- JSON text of a `PayLoad`, as `json.Marshal` gives it: an object with the
one exported field under its Go name. -/
def marshal (p : PayLoad) : String :=
  "\x7b\"Content\":" ++ encodeString p.Content ++ "\x7d"

/-- Text that `json.NewEncoder(w).Encode(&p)` writes to `w`: the JSON value
followed by a newline character. -/
def encode (p : PayLoad) : String :=
  marshal p ++ "\n"

/-- The request handed to the HTTP client by `http.Post(url, contentType, r)`;
`body` is everything the encoder wrote into the pipe before closing it. -/
structure Request where
  method : String
  url : String
  contentType : String
  body : String
deriving DecidableEq, Repr

/-- A response of the endpoint, seen through `ioutil.ReadAll(resp.Body)`: the
bytes of the body, or the error of the read. -/
structure Response where
  readAll : Except String (List UInt8)

/-- The HTTP endpoint and transport: the error of `http.Post` or the response,
for the request sent. -/
structure Env where
  post : Request → Except String Response

/-- Observable result of the poster: the request made, exit code, the bytes
on standard output and the log text. -/
structure Result where
  request : Request
  exitCode : Nat
  stdout : List UInt8
  stderr : String

/-- Effect of `fmt.Println(string(body))`: the bytes of the body, then the
newline byte. -/
def printlnBytes (out : List UInt8) (body : List UInt8) : List UInt8 :=
  out ++ body ++ [10]

/-- The program `main` of `post-json/main.go`. Encoding a record of one
string cannot fail, and the model covers the runs in which the write into the
pipe succeeds too: the encoding task runs to completion without reaching its
`log.Fatal`, and the request body is the whole text it wrote. -/
def main (env : Env) : Result :=
  let req : Request :=
    ⟨"POST", "https://httpbin.org/post", "application/json",
      encode ⟨"Hello there!"⟩⟩
  match env.post req with
  | .error err => ⟨req, 1, [], err ++ "\n"⟩
  | .ok resp =>
    match resp.readAll with
    | .error err => ⟨req, 1, [], err ++ "\n"⟩
    | .ok body => ⟨req, 0, printlnBytes [] body, ""⟩

end PostJson

/-! ## Synonym lookup CLI (`synonyms/main.go`) -/

namespace Synonyms

/-- Externally visible actions of the CLI, in the order they happen: a call
of `thesaurus.Synonyms(word)` and a call of `fmt.Println(syn)`. -/
inductive Event where
  | lookup (word : String)
  | print (syn : String)
deriving DecidableEq, Repr

/-- The two return values of `thesaurus.Synonyms(word)`: the synonyms and the
error (`none` for `nil`). -/
structure LookupResult where
  syns : List String
  err : Option String
deriving DecidableEq, Repr

/-- The thesaurus client `BigHugh` with its one operation: for an API key and
a word, the synonyms or an error. The remote service behind it is not part of
the CLI, so the operation is a parameter of the model. -/
structure BigHugh where
  APIKey : String
  lookup : String → String → LookupResult

/-- The method `Synonyms` of the client. -/
def BigHugh.Synonyms (t : BigHugh) (word : String) : LookupResult :=
  t.lookup t.APIKey word

/-- State of a run: events so far, standard output so far. -/
structure State where
  trace : List Event
  stdout : String
deriving DecidableEq, Repr

/-- Observable result of the CLI: the outcome and the trace of events. -/
structure Result where
  outcome : Outcome
  trace : List Event
deriving DecidableEq, Repr

/-- The inner loop `for _, syn := range syns { fmt.Println(syn) }`. -/
def printAll (st : State) : List String → State
  | [] => st
  | syn :: rest => printAll ⟨st.trace ++ [.print syn], println st.stdout syn⟩ rest

/-- Size in bytes from which a line is too long for the Scanner:
`bufio.MaxScanTokenSize`. -/
def maxScanTokenSize : Nat := 64 * 1024

/-- The loop `for s.Scan() { ... }` over the lines still unread. `s.Scan()`
returns false at the end of the input and at a line of `maxScanTokenSize`
bytes or more; `main` then returns without looking at `s.Err()`, so both end
the program with exit code 0. -/
def scanLoop (thesaurus : BigHugh) : List String → State → Result
  | [], st => ⟨⟨0, st.stdout, ""⟩, st.trace⟩
  | word :: rest, st =>
    if maxScanTokenSize ≤ word.utf8ByteSize then
      ⟨⟨0, st.stdout, ""⟩, st.trace⟩
    else
      let r := thesaurus.Synonyms word
      let st1 : State := ⟨st.trace ++ [.lookup word], st.stdout⟩
      match r.err with
      | some err =>
        ⟨⟨1, st1.stdout,
          "Failed when looking for synonyms for  " ++ word ++ "" ++ " " ++ err ++ "\n"⟩,
          st1.trace⟩
      | none =>
        if r.syns.length = 0 then
          ⟨⟨1, st1.stdout, "Couldnt find any synonyms for " ++ word ++ "" ++ " <nil>\n"⟩,
            st1.trace⟩
        else
          scanLoop thesaurus rest (printAll st1 r.syns)

/-- The program `main` of `synonyms/main.go`: `getenv` is the process
environment, `lookup` the thesaurus service, `stdin` the lines of standard
input in order, each ended by a newline alone, with no carriage return before
it, and given without it; the input ends after the last of them, by its end
or by a read error. -/
def main (getenv : String → String) (lookup : String → String → LookupResult)
    (stdin : List String) : Result :=
  let apiKey := getenv "BHT_APIKEY"
  let thesaurus : BigHugh := ⟨apiKey, lookup⟩
  scanLoop thesaurus stdin ⟨[], ""⟩

/-- A lookup after which the run goes on: no error and at least one synonym. -/
def succeeds (r : LookupResult) : Prop :=
  r.err = none ∧ r.syns ≠ []

instance : DecidablePred succeeds := fun r =>
  inferInstanceAs (Decidable (r.err = none ∧ r.syns ≠ []))

/-- Events of one fully processed word: its lookup, then one print for each
synonym returned, in returned order. -/
def block (t : BigHugh) (word : String) : List Event :=
  .lookup word :: (t.Synonyms word).syns.map .print

/-- The words looked up in a trace, in order. -/
def lookups : List Event → List String
  | [] => []
  | .lookup w :: rest => w :: lookups rest
  | .print _ :: rest => lookups rest

/-- The synonyms printed in a trace, in order. -/
def printed : List Event → List String
  | [] => []
  | .lookup _ :: rest => printed rest
  | .print s :: rest => s :: printed rest

end Synonyms

/-! ## Probe-and-print: theorems -/

namespace Ping

/-- With fuel for five iterations the loop started at `num = 0` makes five
reads, prints the lines of the first four and leaves with exit code 0. -/
theorem loop_five (readLine : Nat → ReadLineResult) (fuel : Nat) (out : String) :
    loop readLine (fuel + 5) ⟨0, 0, out⟩
      = some ⟨⟨0, println (println (println (println out (readLine 0).line)
          (readLine 1).line) (readLine 2).line) (readLine 3).line, ""⟩, 5⟩ := by
  rfl

/-- The loop result for any fuel of at least five iterations. -/
theorem main_obtained (env : Env) (fuel : Nat) (hp : env.pipeErr = none)
    (hf : 5 ≤ fuel) :
    main env fuel
      = some ⟨⟨0, println (println (println (println "" (env.readLine 0).line)
          (env.readLine 1).line) (env.readLine 2).line) (env.readLine 3).line, ""⟩, 5⟩ := by
  obtain ⟨k, rfl⟩ := Nat.exists_eq_add_of_le hf
  rw [Nat.add_comm 5 k]
  simp only [main, hp]
  exact loop_five env.readLine k ""

theorem findLine_line (n : Nat) (l rem : List UInt8) (h10 : (10 : UInt8) ∉ l)
    (hn : l.length < n) : findLine n (l ++ 10 :: rem) = some (l, rem) := by
  induction l generalizing n with
  | nil =>
    obtain ⟨m, rfl⟩ : ∃ m, n = m + 1 := ⟨n - 1, by simp at hn; omega⟩
    simp [findLine]
  | cons b t ih =>
    obtain ⟨m, rfl⟩ : ∃ m, n = m + 1 := ⟨n - 1, by simp at hn; omega⟩
    have hb : b ≠ 10 := fun h => h10 (by simp [h])
    have ht : (10 : UInt8) ∉ t := fun h => h10 (List.mem_cons_of_mem b h)
    have := ih m ht (by simp at hn; omega)
    simp [findLine, hb, this]

theorem findLine_none_length (n : Nat) (rem : List UInt8)
    (h : findLine n rem = none) (h10 : (10 : UInt8) ∈ rem) : n ≤ rem.length := by
  induction rem generalizing n with
  | nil => cases h10
  | cons b t ih =>
    cases n with
    | zero => omega
    | succ m =>
      by_cases hb : b = 10
      · simp [findLine, hb] at h
      · have ht : (10 : UInt8) ∈ t := by
          rcases List.mem_cons.mp h10 with h1 | h1
          · exact absurd h1.symm hb
          · exact h1
        have hf : findLine m t = none := by
          cases hft : findLine m t with
          | none => rfl
          | some p => simp [findLine, hb, hft] at h
        have := ih m hf ht
        simp
        omega

theorem readLineStep_line (c : Bool) (l rem : List UInt8)
    (h10 : (10 : UInt8) ∉ l) (hn : l.length < defaultBufSize) :
    readLineStep c (l ++ 10 :: rem)
      = (.returned (.data (bytesToString (trimCR l)) false), rem) := by
  simp [readLineStep, findLine_line defaultBufSize l rem h10 hn]

theorem findLine_none_of_not_mem (n : Nat) (rem : List UInt8)
    (h10 : (10 : UInt8) ∉ rem.take n) : findLine n rem = none := by
  induction n generalizing rem with
  | zero => rfl
  | succ m ih =>
    cases rem with
    | nil => rfl
    | cons b t =>
      have hb : b ≠ 10 := fun h => h10 (by simp [h])
      have ht : (10 : UInt8) ∉ t.take m := fun h => h10 (by simp [h])
      simp [findLine, hb, ih t ht]

/-- A line that does not end within the buffer comes back in pieces: when the
first 4096 unread bytes hold no newline and do not end in a carriage return,
one read returns exactly these bytes with the prefix flag set and leaves the
rest of the line unread. -/
theorem readLineStep_piece (c : Bool) (rem : List UInt8)
    (h10 : (10 : UInt8) ∉ rem.take defaultBufSize) (hlen : defaultBufSize ≤ rem.length)
    (hcr : (rem.take defaultBufSize).getLast? ≠ some 13) :
    readLineStep c rem
      = (.returned (.data (bytesToString (rem.take defaultBufSize)) true),
          rem.drop defaultBufSize) := by
  simp [readLineStep, findLine_none_of_not_mem defaultBufSize rem h10, hlen, hcr]

theorem readLineStep_returns_of_mem (c : Bool) (rem : List UInt8)
    (h10 : (10 : UInt8) ∈ rem) : ∃ r, (readLineStep c rem).1 = .returned r := by
  unfold readLineStep
  cases hf : findLine defaultBufSize rem with
  | some p => exact ⟨_, rfl⟩
  | none =>
    have hlen := findLine_none_length defaultBufSize rem hf h10
    simp only [hlen, if_true]
    split <;> exact ⟨_, rfl⟩

theorem readLineStep_returns_of_closes (rem : List UInt8) :
    ∃ r, (readLineStep true rem).1 = .returned r := by
  unfold readLineStep
  cases findLine defaultBufSize rem with
  | some p => exact ⟨_, rfl⟩
  | none =>
    simp only [if_true]
    split
    · split <;> exact ⟨_, rfl⟩
    · split <;> exact ⟨_, rfl⟩

theorem readLineFrom_returns_of_closes (rem : List UInt8) (k : Nat) :
    ∃ r, readLineFrom true rem k = .returned r := by
  induction k generalizing rem with
  | zero => exact readLineStep_returns_of_closes rem
  | succ k ih => exact ih _

theorem readLineFrom_end (k : Nat) :
    readLineFrom true [] k = .returned (.failed "EOF") := by
  induction k with
  | zero => rfl
  | succ k ih => exact ih

theorem joinLines_cons (l : List UInt8) (lines : List (List UInt8)) (rem : List UInt8) :
    joinLines (l :: lines) ++ rem = l ++ 10 :: (joinLines lines ++ rem) := by
  simp [joinLines, List.flatMap_cons]

/-- Reads of a stream that starts with whole lines, each shorter than the
buffer: the `k`-th read returns line `k`, and the reads after the last of
these lines are the reads of the rest of the stream. -/
theorem readLineFrom_joinLines (c : Bool) (lines : List (List UInt8))
    (rem : List UInt8) (k : Nat)
    (h : ∀ l ∈ lines, (10 : UInt8) ∉ l ∧ l.length < defaultBufSize) :
    readLineFrom c (joinLines lines ++ rem) k
      = match lines[k]? with
        | some l => .returned (.data (bytesToString (trimCR l)) false)
        | none => readLineFrom c rem (k - lines.length) := by
  induction lines generalizing k with
  | nil => simp [joinLines]
  | cons l t ih =>
    have hl := h l (List.mem_cons_self l t)
    have ht : ∀ x ∈ t, (10 : UInt8) ∉ x ∧ x.length < defaultBufSize :=
      fun x hx => h x (List.mem_cons_of_mem l hx)
    rw [joinLines_cons]
    cases k with
    | zero => simp [readLineFrom, readLineStep_line c l _ hl.1 hl.2]
    | succ k =>
      rw [readLineFrom, readLineStep_line c l _ hl.1 hl.2]
      simp [ih k ht]

theorem runLoop_five (readLine : Nat → ReadStep) (fuel : Nat) (out : String)
    (r0 r1 r2 r3 r4 : ReadLineResult)
    (h0 : readLine 0 = .returned r0) (h1 : readLine 1 = .returned r1)
    (h2 : readLine 2 = .returned r2) (h3 : readLine 3 = .returned r3)
    (h4 : readLine 4 = .returned r4) :
    runLoop readLine (fuel + 5) ⟨0, 0, out⟩
      = some (.exited ⟨⟨0, println (println (println (println out r0.line) r1.line)
          r2.line) r3.line, ""⟩, 5⟩) := by
  simp [runLoop, h0, h1, h2, h3, h4]

theorem runLoop_not_exited (readLine : Nat → ReadStep) (fuel : Nat) (st : LoopState)
    (h : st.num + fuel ≤ 4) (r : Result) :
    runLoop readLine fuel st ≠ some (.exited r) := by
  induction fuel generalizing st with
  | zero => simp [runLoop]
  | succ n ih =>
    rw [runLoop]
    cases readLine st.reads with
    | blocked => simp
    | returned x =>
      have hnum : ¬ st.num > 3 := by omega
      simp only [hnum, if_false]
      exact ih _ (by simp only; omega)

theorem runLoop_waiting (readLine : Nat → ReadStep) (fuel : Nat) (st : LoopState)
    (hst : st.reads = st.num)
    (hb : ∃ k, st.num ≤ k ∧ k < 5 ∧ readLine k = .blocked)
    (hf : 5 ≤ st.num + fuel) :
    ∃ n out, runLoop readLine fuel st = some (.waiting n out) := by
  induction fuel generalizing st with
  | zero =>
    obtain ⟨k, hk1, hk2, _⟩ := hb
    omega
  | succ n ih =>
    rw [runLoop]
    cases hr : readLine st.reads with
    | blocked => exact ⟨_, _, rfl⟩
    | returned x =>
      obtain ⟨k, hk1, hk2, hk3⟩ := hb
      have hne : k ≠ st.num := by
        intro hk
        rw [hk, ← hst, hr] at hk3
        cases hk3
      have hnum : ¬ st.num > 3 := by omega
      simp only [hnum, if_false]
      exact ih _ (by simp only; omega) ⟨k, by simp only; omega, hk2, hk3⟩
        (by simp only; omega)

theorem println_four (a b c d : String) :
    println (println (println (println "" a) b) c) d = textOf [a, b, c, d] := by
  simp [println, textOf, String.append_assoc]

theorem runLoop_toWorld (readLine : Nat → ReadLineResult) (fuel : Nat) (st : LoopState) :
    runLoop (fun k => .returned (readLine k)) fuel st
      = (loop readLine fuel st).map Run.exited := by
  induction fuel generalizing st with
  | zero => rfl
  | succ n ih =>
    rw [runLoop, loop]
    by_cases h : st.num > 3
    · simp [h]
    · simp only [h, if_false]
      exact ih _

/-- On an environment in which every read returns, the two embeddings of
`main` agree. -/
theorem run_toWorld (env : Env) (fuel : Nat) :
    run env.toWorld fuel = (main env fuel).map Run.exited := by
  unfold run main Env.toWorld
  cases env.pipeErr with
  | some err => rfl
  | none => exact runLoop_toWorld env.readLine fuel _

/-- The run of a world whose stream is obtained and whose first five reads
return. -/
theorem run_five (w : World) (fuel : Nat) (r0 r1 r2 r3 r4 : ReadLineResult)
    (hp : w.pipeErr = none) (hf : 5 ≤ fuel)
    (h0 : w.readLine 0 = .returned r0) (h1 : w.readLine 1 = .returned r1)
    (h2 : w.readLine 2 = .returned r2) (h3 : w.readLine 3 = .returned r3)
    (h4 : w.readLine 4 = .returned r4) :
    run w fuel
      = some (.exited ⟨⟨0, textOf [r0.line, r1.line, r2.line, r3.line], ""⟩, 5⟩) := by
  obtain ⟨k, rfl⟩ := Nat.exists_eq_add_of_le hf
  rw [Nat.add_comm 5 k]
  simp only [run, hp]
  rw [runLoop_five w.readLine k "" r0 r1 r2 r3 r4 h0 h1 h2 h3 h4, println_four]

/-- A run given fuel for fewer than five iterations has not left the loop. -/
theorem run_short (w : World) (fuel : Nat) (r : Result) (hp : w.pipeErr = none)
    (hf : fuel < 5) : run w fuel ≠ some (.exited r) := by
  simp only [run, hp]
  exact runLoop_not_exited w.readLine fuel _ (by simp only; omega) r

/-- C1, counterexample: for the stream of the five lines a, b, c, d, e no run
ends with exactly those five lines printed; with fuel for five iterations the
run has ended with the first four. -/
theorem C1_counterexample :
    (¬ ∃ fuel r, run (sourceWorld ⟨[97, 10, 98, 10, 99, 10, 100, 10, 101, 10], true⟩) fuel
          = some (.exited r) ∧ r.outcome.stdout = "a\nb\nc\nd\ne\n")
      ∧ run (sourceWorld ⟨[97, 10, 98, 10, 99, 10, 100, 10, 101, 10], true⟩) 5
          = some (.exited ⟨⟨0, "a\nb\nc\nd\n", ""⟩, 5⟩) := by
  refine ⟨?_, by decide⟩
  rintro ⟨fuel, r, h, hs⟩
  rcases Nat.lt_or_ge fuel 5 with hlt | hge
  · exact run_short _ fuel r rfl hlt h
  · rw [run_five _ fuel (.data "a" false) (.data "b" false) (.data "c" false)
      (.data "d" false) (.data "e" false) rfl hge (by decide) (by decide) (by decide)
      (by decide) (by decide)] at h
    cases h
    revert hs
    decide

/-- C1, as amended: for every stream that starts with at least five lines,
each ended by a newline, of which the first four are shorter than the 4096
bytes of the reader's buffer, whatever follows them and whether or not the
stream ends, and any fuel of at least five iterations, the program makes five
reads, prints exactly the first four lines (indices 0 to 3) in order, each
without its `\n` or `\r\n` and followed by a newline, does not print the
fifth, and ends with exit code 0. -/
theorem C1_prints_first_four (lines : List (List UInt8)) (tail : List UInt8)
    (closes : Bool) (fuel : Nat) (hn : 5 ≤ lines.length)
    (h10 : ∀ l ∈ lines, (10 : UInt8) ∉ l)
    (hshort : ∀ l ∈ lines.take 4, l.length < defaultBufSize) (hf : 5 ≤ fuel) :
    run (sourceWorld ⟨joinLines lines ++ tail, closes⟩) fuel
      = some (.exited ⟨⟨0,
          textOf ((lines.take 4).map fun l => bytesToString (trimCR l)), ""⟩, 5⟩) := by
  match lines, hn, h10, hshort with
  | l0 :: l1 :: l2 :: l3 :: l4 :: more, _, h10, hshort =>
    have hfirst : ∀ l ∈ [l0, l1, l2, l3], (10 : UInt8) ∉ l ∧ l.length < defaultBufSize :=
      fun l hl => ⟨h10 l (by simp at hl ⊢; tauto), hshort l (by simpa using hl)⟩
    have hsplit : joinLines (l0 :: l1 :: l2 :: l3 :: l4 :: more) ++ tail
        = joinLines [l0, l1, l2, l3] ++ (l4 ++ 10 :: (joinLines more ++ tail)) := by
      simp [joinLines, List.flatMap_cons]
    have hread := fun k => readLineFrom_joinLines closes [l0, l1, l2, l3]
      (l4 ++ 10 :: (joinLines more ++ tail)) k hfirst
    obtain ⟨r4, hr4⟩ := readLineStep_returns_of_mem closes
      (l4 ++ 10 :: (joinLines more ++ tail)) (by simp)
    rw [hsplit]
    have h0 : readLineFrom closes (joinLines [l0, l1, l2, l3]
        ++ (l4 ++ 10 :: (joinLines more ++ tail))) 0
        = .returned (.data (bytesToString (trimCR l0)) false) := by
      rw [hread 0]; rfl
    have h1 : readLineFrom closes (joinLines [l0, l1, l2, l3]
        ++ (l4 ++ 10 :: (joinLines more ++ tail))) 1
        = .returned (.data (bytesToString (trimCR l1)) false) := by
      rw [hread 1]; rfl
    have h2 : readLineFrom closes (joinLines [l0, l1, l2, l3]
        ++ (l4 ++ 10 :: (joinLines more ++ tail))) 2
        = .returned (.data (bytesToString (trimCR l2)) false) := by
      rw [hread 2]; rfl
    have h3 : readLineFrom closes (joinLines [l0, l1, l2, l3]
        ++ (l4 ++ 10 :: (joinLines more ++ tail))) 3
        = .returned (.data (bytesToString (trimCR l3)) false) := by
      rw [hread 3]; rfl
    have h4 : readLineFrom closes (joinLines [l0, l1, l2, l3]
        ++ (l4 ++ 10 :: (joinLines more ++ tail))) 4 = .returned r4 := by
      rw [hread 4]; exact hr4
    rw [run_five (sourceWorld ⟨_, closes⟩) fuel _ _ _ _ r4 rfl hf h0 h1 h2 h3 h4]
    simp [ReadLineResult.line]

/-- Witness of `C1_prints_first_four`: six lines, the second ended by a
carriage return and a newline, on a stream that stays open. -/
theorem C1_prints_first_four_witness :
    run (sourceWorld ⟨[97, 10, 98, 13, 10, 99, 10, 100, 10, 101, 10, 102, 10], false⟩) 7
      = some (.exited ⟨⟨0, "a\nb\nc\nd\n", ""⟩, 5⟩) :=
  C1_prints_first_four [[97], [98, 13], [99], [100], [101], [102]] [] false 7
    (by decide) (by decide) (by decide) (by decide)

/-- C8, counterexample: the stream is obtained, the subprocess stays alive
and writes nothing; the first read never returns and no run exits, with code
0 or any other. -/
theorem C8_counterexample :
    (¬ ∃ fuel r, run (sourceWorld ⟨[], false⟩) fuel = some (.exited r))
      ∧ run (sourceWorld ⟨[], false⟩) 5 = some (.waiting 1 "") := by
  refine ⟨?_, by decide⟩
  rintro ⟨fuel, r, h⟩
  cases fuel with
  | zero => simp [run, sourceWorld, runLoop] at h
  | succ n =>
    have hb : readLineFrom false [] 0 = .blocked := by decide
    simp [run, sourceWorld, runLoop, hb] at h

/-- C8, as amended: for any fuel of at least five iterations, the program
ends fatally (exit code 1, nothing on standard output, no read made) when
obtaining the output stream fails; when the stream is obtained and the first
five reads return, whatever `cmd.Start()` returned and whether the reads gave
lines or errors, it ends with exit code 0 after five reads; when the stream is
obtained and one of the first five reads never returns, it does not end at
all; so a run that ends has a non-zero exit code exactly when obtaining the
stream failed. -/
theorem C8_fatal_iff_pipe_fails (w : World) (fuel : Nat) (hf : 5 ≤ fuel) :
    (w.pipeErr ≠ none → ∃ r, run w fuel = some (.exited r)
        ∧ r.outcome.exitCode = 1 ∧ r.outcome.stdout = "" ∧ r.reads = 0)
      ∧ (w.pipeErr = none → (∀ k, k < 5 → w.readLine k ≠ .blocked) →
          ∃ r, run w fuel = some (.exited r) ∧ r.outcome.exitCode = 0 ∧ r.reads = 5)
      ∧ (w.pipeErr = none → (∃ k, k < 5 ∧ w.readLine k = .blocked) →
          (∃ n out, run w fuel = some (.waiting n out))
            ∧ ∀ r, run w fuel ≠ some (.exited r))
      ∧ (∀ r, run w fuel = some (.exited r) →
          (r.outcome.exitCode ≠ 0 ↔ w.pipeErr ≠ none)) := by
  have hfatal : w.pipeErr ≠ none → ∃ r, run w fuel = some (.exited r)
      ∧ r.outcome.exitCode = 1 ∧ r.outcome.stdout = "" ∧ r.reads = 0 := by
    intro hp
    cases hpe : w.pipeErr with
    | none => exact absurd hpe hp
    | some err => exact ⟨⟨⟨1, "", err ++ "\n"⟩, 0⟩, by simp only [run, hpe], rfl, rfl, rfl⟩
  have hret : ∀ k, w.readLine k ≠ .blocked → ∃ r, w.readLine k = .returned r := by
    intro k hk
    cases hr : w.readLine k with
    | blocked => exact absurd hr hk
    | returned r => exact ⟨r, rfl⟩
  have hexit : w.pipeErr = none → (∀ k, k < 5 → w.readLine k ≠ .blocked) →
      ∃ r, run w fuel = some (.exited r) ∧ r.outcome.exitCode = 0 ∧ r.reads = 5 := by
    intro hp hall
    obtain ⟨r0, h0⟩ := hret 0 (hall 0 (by decide))
    obtain ⟨r1, h1⟩ := hret 1 (hall 1 (by decide))
    obtain ⟨r2, h2⟩ := hret 2 (hall 2 (by decide))
    obtain ⟨r3, h3⟩ := hret 3 (hall 3 (by decide))
    obtain ⟨r4, h4⟩ := hret 4 (hall 4 (by decide))
    exact ⟨_, run_five w fuel r0 r1 r2 r3 r4 hp hf h0 h1 h2 h3 h4, rfl, rfl⟩
  have hwait : w.pipeErr = none → (∃ k, k < 5 ∧ w.readLine k = .blocked) →
      ∃ n out, run w fuel = some (.waiting n out) := by
    intro hp hb
    obtain ⟨k, hk, hkb⟩ := hb
    simp only [run, hp]
    exact runLoop_waiting w.readLine fuel ⟨0, 0, ""⟩ rfl ⟨k, Nat.zero_le k, hk, hkb⟩
      (by simp only; omega)
  refine ⟨hfatal, hexit, fun hp hb => ⟨hwait hp hb, fun r hr => ?_⟩, fun r hr => ?_⟩
  · obtain ⟨n, out, hw⟩ := hwait hp hb
    rw [hw] at hr
    cases hr
  · by_cases hp : w.pipeErr = none
    · by_cases hall : ∀ k, k < 5 → w.readLine k ≠ .blocked
      · obtain ⟨r2, hr2, hcode, _⟩ := hexit hp hall
        rw [hr2] at hr
        cases hr
        simp [hcode, hp]
      · have hb : ∃ k, k < 5 ∧ w.readLine k = .blocked := by
          by_contra hno
          exact hall fun k hk hkb => hno ⟨k, hk, hkb⟩
        obtain ⟨n, out, hw⟩ := hwait hp hb
        rw [hw] at hr
        cases hr
    · obtain ⟨r2, hr2, hcode, _⟩ := hfatal hp
      rw [hr2] at hr
      cases hr
      simp [hcode, hp]

/-- Witness of `C8_fatal_iff_pipe_fails`: once with the stream refused, once
with the stream obtained, the subprocess failing to start and every read
failing. -/
theorem C8_fatal_iff_pipe_fails_witness :
    (∃ r, run ⟨some "too many open files", none, fun _ => .blocked⟩ 5 = some (.exited r)
        ∧ r.outcome.exitCode = 1 ∧ r.outcome.stdout = "" ∧ r.reads = 0)
      ∧ (∃ r, run ⟨none, some "exec: not found", fun _ => .returned (.failed "closed")⟩ 5
          = some (.exited r) ∧ r.outcome.exitCode = 0 ∧ r.reads = 5) :=
  ⟨(C8_fatal_iff_pipe_fails ⟨some "too many open files", none, fun _ => .blocked⟩ 5
      (by decide)).1 (by decide),
    (C8_fatal_iff_pipe_fails
      ⟨none, some "exec: not found", fun _ => .returned (.failed "closed")⟩ 5
      (by decide)).2.1 rfl (fun _ _ h => ReadStep.noConfusion h)⟩

/-- C9, counterexample: a stream that yields two lines and then ends does
not keep the program running; with fuel for five iterations it has left with
exit code 0 after printing the two lines and two empty lines. -/
theorem C9_counterexample :
    run (sourceWorld ⟨[97, 10, 98, 10], true⟩) 5
        = some (.exited ⟨⟨0, "a\nb\n\n\n", ""⟩, 5⟩)
      ∧ ¬ ∀ fuel r, run (sourceWorld ⟨[97, 10, 98, 10], true⟩) fuel ≠ some (.exited r) := by
  refine ⟨by decide, fun h => ?_⟩
  exact h 5 ⟨⟨0, "a\nb\n\n\n", ""⟩, 5⟩ (by decide)

/-- C9, as amended: every stream that ends lets the program end: with fuel
for five iterations it leaves with exit code 0 after exactly five reads,
whatever bytes the stream carried. When the stream is fewer than five lines,
each ended by a newline and shorter than the 4096 bytes of the reader's
buffer, standard output is these lines, each without its `\n` or `\r\n` and
followed by a newline, and then one empty line for each read made at the end
of the stream, four printed lines in all. -/
theorem C9_short_stream_exits (lines : List (List UInt8)) (fuel : Nat)
    (hn : lines.length < 5) (h10 : ∀ l ∈ lines, (10 : UInt8) ∉ l)
    (hshort : ∀ l ∈ lines, l.length < defaultBufSize) (hf : 5 ≤ fuel) :
    run (sourceWorld ⟨joinLines lines, true⟩) fuel
        = some (.exited ⟨⟨0, textOf (lines.map (fun l => bytesToString (trimCR l))
            ++ List.replicate (4 - lines.length) ""), ""⟩, 5⟩)
      ∧ ∀ bytes : List UInt8, ∃ out,
          run (sourceWorld ⟨bytes, true⟩) fuel = some (.exited ⟨⟨0, out, ""⟩, 5⟩) := by
  constructor
  · have hall : ∀ l ∈ lines, (10 : UInt8) ∉ l ∧ l.length < defaultBufSize :=
      fun l hl => ⟨h10 l hl, hshort l hl⟩
    have hread : ∀ k, readLineFrom true (joinLines lines) k
        = match lines[k]? with
          | some l => .returned (.data (bytesToString (trimCR l)) false)
          | none => .returned (.failed "EOF") := by
      intro k
      have := readLineFrom_joinLines true lines [] k hall
      rw [List.append_nil] at this
      rw [this]
      split
      · rfl
      · exact readLineFrom_end _
    have hrun := fun r0 r1 r2 r3 r4 h0 h1 h2 h3 h4 =>
      run_five (sourceWorld ⟨joinLines lines, true⟩) fuel r0 r1 r2 r3 r4 rfl hf
        h0 h1 h2 h3 h4
    match lines, hn, hread, hrun with
    | [], _, hread, hrun =>
      rw [hrun _ _ _ _ _ (hread 0) (hread 1) (hread 2) (hread 3) (hread 4)]
      simp [ReadLineResult.line]
    | [l0], _, hread, hrun =>
      rw [hrun _ _ _ _ _ (hread 0) (hread 1) (hread 2) (hread 3) (hread 4)]
      simp [ReadLineResult.line]
    | [l0, l1], _, hread, hrun =>
      rw [hrun _ _ _ _ _ (hread 0) (hread 1) (hread 2) (hread 3) (hread 4)]
      simp [ReadLineResult.line]
    | [l0, l1, l2], _, hread, hrun =>
      rw [hrun _ _ _ _ _ (hread 0) (hread 1) (hread 2) (hread 3) (hread 4)]
      simp [ReadLineResult.line]
    | [l0, l1, l2, l3], _, hread, hrun =>
      rw [hrun _ _ _ _ _ (hread 0) (hread 1) (hread 2) (hread 3) (hread 4)]
      simp [ReadLineResult.line]
    | _ :: _ :: _ :: _ :: _ :: _, h, _, _ => simp only [List.length_cons] at h; omega
  · intro bytes
    obtain ⟨r0, h0⟩ := readLineFrom_returns_of_closes bytes 0
    obtain ⟨r1, h1⟩ := readLineFrom_returns_of_closes bytes 1
    obtain ⟨r2, h2⟩ := readLineFrom_returns_of_closes bytes 2
    obtain ⟨r3, h3⟩ := readLineFrom_returns_of_closes bytes 3
    obtain ⟨r4, h4⟩ := readLineFrom_returns_of_closes bytes 4
    exact ⟨_, run_five (sourceWorld ⟨bytes, true⟩) fuel r0 r1 r2 r3 r4 rfl hf
      h0 h1 h2 h3 h4⟩

/-- Witness of `C9_short_stream_exits`: one line, then the end of the stream. -/
theorem C9_short_stream_exits_witness :
    run (sourceWorld ⟨[120, 121, 13, 10], true⟩) 5
      = some (.exited ⟨⟨0, "xy\n\n\n\n", ""⟩, 5⟩) :=
  (C9_short_stream_exits [[120, 121, 13]] 5 (by decide) (by decide) (by decide)
    (by decide)).1

/-- C10: whenever the output stream is obtained, for every sequence of read
results and any fuel of at least five iterations, the loop makes exactly five
reads, prints exactly the lines of reads 1 to 4 (a failed read, the end of the
stream included, giving an empty line), never uses the result of the fifth
read, and ends with exit code 0. -/
theorem C10_five_reads_four_prints (env : Env) (fuel : Nat)
    (hp : env.pipeErr = none) (hf : 5 ≤ fuel) :
    main env fuel
        = some ⟨⟨0, ([env.readLine 0, env.readLine 1, env.readLine 2,
            env.readLine 3].map ReadLineResult.line).foldl println "", ""⟩, 5⟩
      ∧ (∀ err, (ReadLineResult.failed err).line = "")
      ∧ (∀ env2 : Env, env2.pipeErr = none →
          (∀ k, k < 4 → env2.readLine k = env.readLine k) →
          main env2 fuel = main env fuel) := by
  refine ⟨main_obtained env fuel hp hf, fun _ => rfl, fun env2 hp2 h => ?_⟩
  rw [main_obtained env fuel hp hf, main_obtained env2 fuel hp2 hf,
    h 0 (by decide), h 1 (by decide), h 2 (by decide), h 3 (by decide)]

/-- Witness of `C10_five_reads_four_prints`: a line, a failed read, a line,
the end of the stream, and a fifth read that is dropped. -/
theorem C10_five_reads_four_prints_witness :
    main ⟨none, none, fun k => if k = 0 then .data "x" false else if k = 2 then
          .data "y" true else if k = 4 then .data "z" false else .failed "EOF"⟩ 9
      = some ⟨⟨0, "x\n\ny\n\n", ""⟩, 5⟩ :=
  (C10_five_reads_four_prints ⟨none, none, fun k => if k = 0 then .data "x" false
    else if k = 2 then .data "y" true else if k = 4 then .data "z" false
    else .failed "EOF"⟩ 9 rfl (by decide)).1

end Ping

/-! ## Streaming JSON poster: theorems -/

namespace PostJson

/-- C5, counterexample: the request body is not exactly the JSON text of the
payload; it is one character longer. -/
theorem C5_counterexample :
    (main ⟨fun _ => .ok ⟨.ok []⟩⟩).request.body ≠ "\x7b\"Content\":\"Hello there!\"\x7d"
      ∧ (main ⟨fun _ => .ok ⟨.ok []⟩⟩).request.body.length = 27 := by
  decide

/-- C5, as amended: whatever the endpoint answers, the request is a POST to
the fixed URL with content type `application/json`, and its body is exactly
the JSON text of the payload followed by one newline character, with nothing
before the text and nothing after the newline. -/
theorem C5_request_body (env : Env) :
    (main env).request.body = "\x7b\"Content\":\"Hello there!\"\x7d" ++ "\n"
      ∧ (main env).request.body = encode ⟨"Hello there!"⟩
      ∧ (main env).request.contentType = "application/json"
      ∧ (main env).request.method = "POST"
      ∧ (main env).request.url = "https://httpbin.org/post" := by
  have hreq : (main env).request
      = ⟨"POST", "https://httpbin.org/post", "application/json", encode ⟨"Hello there!"⟩⟩ := by
    unfold main
    simp only []
    split
    · rfl
    · split <;> rfl
  rw [hreq]
  exact ⟨by decide, rfl, rfl, rfl, rfl⟩

/-- C6, counterexample: for the response body of the two bytes `hi` the
printed output is three bytes long and differs from the body. -/
theorem C6_counterexample :
    (main ⟨fun _ => .ok ⟨.ok [104, 105]⟩⟩).stdout ≠ [104, 105]
      ∧ (main ⟨fun _ => .ok ⟨.ok [104, 105]⟩⟩).stdout = [104, 105, 10] := by
  decide

/-- C6, as amended: when the request and the read of the response body both
succeed, standard output is the response body, byte for byte, followed by
exactly one newline byte, and the program ends with exit code 0. -/
theorem C6_prints_body_newline (env : Env) (resp : Response) (body : List UInt8)
    (hpost : env.post ⟨"POST", "https://httpbin.org/post", "application/json",
      encode ⟨"Hello there!"⟩⟩ = .ok resp)
    (hread : resp.readAll = .ok body) :
    (main env).stdout = body ++ [10] ∧ (main env).exitCode = 0
      ∧ (main env).stderr = "" := by
  simp [main, hpost, hread, printlnBytes]

/-- Witness of `C6_prints_body_newline` on a response body of three bytes. -/
theorem C6_prints_body_newline_witness :
    (main ⟨fun _ => .ok ⟨.ok [0, 255, 10]⟩⟩).stdout = [0, 255, 10] ++ [10]
      ∧ (main ⟨fun _ => .ok ⟨.ok [0, 255, 10]⟩⟩).exitCode = 0
      ∧ (main ⟨fun _ => .ok ⟨.ok [0, 255, 10]⟩⟩).stderr = "" :=
  C6_prints_body_newline ⟨fun _ => .ok ⟨.ok [0, 255, 10]⟩⟩ ⟨.ok [0, 255, 10]⟩
    [0, 255, 10] rfl rfl

end PostJson

/-! ## Synonym lookup CLI: theorems -/

namespace Synonyms

/-- The inner loop appends one print event and one output line per synonym. -/
theorem printAll_eq (syns : List String) (st : State) :
    printAll st syns = ⟨st.trace ++ syns.map .print, syns.foldl println st.stdout⟩ := by
  induction syns generalizing st with
  | nil => simp [printAll]
  | cons syn rest ih => simp [printAll, ih]

/-- Printing lines one after the other appends their text. -/
theorem foldl_println (lines : List String) (out : String) :
    lines.foldl println out = out ++ textOf lines := by
  induction lines generalizing out with
  | nil => simp [textOf]
  | cons s rest ih => simp [ih, println, textOf, String.append_assoc]

/-- A string of `n` letters a is `n` bytes long. -/
theorem utf8ByteSize_replicate (n : Nat) :
    (String.mk (List.replicate n 'a')).utf8ByteSize = n := by
  show String.utf8ByteSize.go (List.replicate n 'a') = n
  induction n with
  | zero => rfl
  | succ k ih =>
    rw [List.replicate_succ, String.utf8ByteSize.go, ih]
    rfl

/-- One iteration on a line too long for the Scanner: the loop is left and
the program ends with exit code 0. -/
theorem scanLoop_cons_long (t : BigHugh) (word : String) (rest : List String)
    (st : State) (hlong : maxScanTokenSize ≤ word.utf8ByteSize) :
    scanLoop t (word :: rest) st = ⟨⟨0, st.stdout, ""⟩, st.trace⟩ := by
  rw [scanLoop]
  simp only [hlong, if_true]

/-- One iteration on a word whose lookup succeeds. -/
theorem scanLoop_cons_good (t : BigHugh) (word : String) (rest : List String)
    (st : State) (hshort : word.utf8ByteSize < maxScanTokenSize)
    (h : succeeds (t.Synonyms word)) :
    scanLoop t (word :: rest) st
      = scanLoop t rest ⟨st.trace ++ block t word,
          (t.Synonyms word).syns.foldl println st.stdout⟩ := by
  obtain ⟨he, hs⟩ := h
  have hlen : (t.Synonyms word).syns.length ≠ 0 := by
    intro h0
    exact hs (List.length_eq_zero.mp h0)
  rw [scanLoop]
  simp only [Nat.not_le.mpr hshort, he, hlen, if_false, printAll_eq, block,
    List.append_assoc, List.singleton_append]

/-- One iteration on a word whose lookup fails or returns nothing: the run
ends there with exit code 1 and nothing more printed. -/
theorem scanLoop_cons_bad (t : BigHugh) (word : String) (rest : List String)
    (st : State) (hshort : word.utf8ByteSize < maxScanTokenSize)
    (h : ¬ succeeds (t.Synonyms word)) :
    (scanLoop t (word :: rest) st).trace = st.trace ++ [.lookup word]
      ∧ (scanLoop t (word :: rest) st).outcome.exitCode = 1
      ∧ (scanLoop t (word :: rest) st).outcome.stdout = st.stdout := by
  rw [scanLoop]
  simp only [Nat.not_le.mpr hshort, if_false]
  cases he : (t.Synonyms word).err with
  | some err => simp
  | none =>
    have hs : (t.Synonyms word).syns.length = 0 := by
      by_contra hne
      exact h ⟨he, fun h0 => hne (by rw [h0]; rfl)⟩
    simp [hs]

/-- A prefix of short lines whose lookups all succeed is processed in full. -/
theorem scanLoop_good_prefix (t : BigHugh) (pre rest : List String) (st : State)
    (h : ∀ v ∈ pre, v.utf8ByteSize < maxScanTokenSize ∧ succeeds (t.Synonyms v)) :
    scanLoop t (pre ++ rest) st
      = scanLoop t rest ⟨st.trace ++ pre.flatMap (block t),
          (pre.flatMap fun v => (t.Synonyms v).syns).foldl println st.stdout⟩ := by
  induction pre generalizing st with
  | nil => simp
  | cons v vs ih =>
    have hv := h v (List.mem_cons_self v vs)
    have hvs : ∀ u ∈ vs, u.utf8ByteSize < maxScanTokenSize ∧ succeeds (t.Synonyms u) :=
      fun u hu => h u (List.mem_cons_of_mem v hu)
    rw [List.cons_append, scanLoop_cons_good t v (vs ++ rest) st hv.1 hv.2, ih _ hvs]
    simp [List.flatMap_cons, List.foldl_append, List.append_assoc]

theorem lookups_append (a b : List Event) :
    lookups (a ++ b) = lookups a ++ lookups b := by
  induction a with
  | nil => rfl
  | cons e rest ih => cases e <;> simp [lookups, ih]

theorem printed_append (a b : List Event) :
    printed (a ++ b) = printed a ++ printed b := by
  induction a with
  | nil => rfl
  | cons e rest ih => cases e <;> simp [printed, ih]

theorem lookups_prints (syns : List String) :
    lookups (syns.map Event.print) = [] := by
  induction syns with
  | nil => rfl
  | cons s rest ih => simp [lookups, ih]

theorem printed_prints (syns : List String) :
    printed (syns.map Event.print) = syns := by
  induction syns with
  | nil => rfl
  | cons s rest ih => simp [printed, ih]

/-- The lookups of a run of full blocks are the words, in order. -/
theorem lookups_blocks (t : BigHugh) (ws : List String) :
    lookups (ws.flatMap (block t)) = ws := by
  induction ws with
  | nil => rfl
  | cons w rest ih =>
    rw [List.flatMap_cons, lookups_append, ih]
    simp [block, lookups, lookups_prints]

/-- The prints of a run of full blocks are the synonyms of the words, in order. -/
theorem printed_blocks (t : BigHugh) (ws : List String) :
    printed (ws.flatMap (block t)) = ws.flatMap fun w => (t.Synonyms w).syns := by
  induction ws with
  | nil => rfl
  | cons w rest ih =>
    rw [List.flatMap_cons, printed_append, ih]
    simp [block, printed, printed_prints]

/-- C2, counterexample: the third line has no synonym, but the second line
is 65536 bytes long; the Scanner stops there and the program ends with exit
code 0 after the lookup of the first line alone. -/
theorem C2_counterexample :
    (∃ w ∈ ["happy", String.mk (List.replicate 65536 'a'), "sad"],
        ¬ succeeds ((fun _ x => if x = "sad" then (⟨[], none⟩ : LookupResult)
          else ⟨["glad"], none⟩) "key" w))
      ∧ main (fun _ => "key") (fun _ x => if x = "sad" then ⟨[], none⟩
            else ⟨["glad"], none⟩)
          ["happy", String.mk (List.replicate 65536 'a'), "sad"]
        = ⟨⟨0, "glad\n", ""⟩, [.lookup "happy", .print "glad"]⟩ := by
  refine ⟨⟨"sad", List.mem_cons_of_mem _ (List.mem_cons_of_mem _ (List.mem_cons_self _ _)),
    by decide⟩, ?_⟩
  simp only [main]
  rw [scanLoop_cons_good _ _ _ _ (by decide) (by decide),
    scanLoop_cons_long _ _ _ _ (Nat.le_trans (by decide : maxScanTokenSize ≤ 65536)
      (Nat.le_of_eq (utf8ByteSize_replicate 65536).symm))]
  decide

/-- C2, as amended: when the lines before a word are all shorter than 65536
bytes and their lookups all succeed with at least one synonym, and the word
is itself shorter than 65536 bytes and its lookup fails or returns no
synonym, the run ends at this word with exit code 1: the words looked up are
exactly the lines before it and the word, so no later line is looked up, and
what was printed, both as events and as standard output, is exactly the
synonyms of the lines before it, one per line. -/
theorem C2_fatal_at_first_failure (getenv : String → String)
    (lookup : String → String → LookupResult) (pre : List String) (w : String)
    (post : List String)
    (hpre : ∀ v ∈ pre, v.utf8ByteSize < maxScanTokenSize
      ∧ succeeds (lookup (getenv "BHT_APIKEY") v))
    (hw : w.utf8ByteSize < maxScanTokenSize)
    (hbad : ¬ succeeds (lookup (getenv "BHT_APIKEY") w)) :
    (main getenv lookup (pre ++ w :: post)).outcome.exitCode = 1
      ∧ (main getenv lookup (pre ++ w :: post)).trace
          = pre.flatMap (block ⟨getenv "BHT_APIKEY", lookup⟩) ++ [.lookup w]
      ∧ lookups (main getenv lookup (pre ++ w :: post)).trace = pre ++ [w]
      ∧ printed (main getenv lookup (pre ++ w :: post)).trace
          = pre.flatMap (fun v => (lookup (getenv "BHT_APIKEY") v).syns)
      ∧ (main getenv lookup (pre ++ w :: post)).outcome.stdout
          = textOf (pre.flatMap fun v => (lookup (getenv "BHT_APIKEY") v).syns) := by
  have hrun : main getenv lookup (pre ++ w :: post)
      = scanLoop ⟨getenv "BHT_APIKEY", lookup⟩ (w :: post)
          ⟨[] ++ pre.flatMap (block ⟨getenv "BHT_APIKEY", lookup⟩),
            (pre.flatMap fun v => (lookup (getenv "BHT_APIKEY") v).syns).foldl
              println ""⟩ :=
    scanLoop_good_prefix ⟨getenv "BHT_APIKEY", lookup⟩ pre (w :: post) ⟨[], ""⟩ hpre
  obtain ⟨htr, hex, hout⟩ := scanLoop_cons_bad ⟨getenv "BHT_APIKEY", lookup⟩ w post
    ⟨[] ++ pre.flatMap (block ⟨getenv "BHT_APIKEY", lookup⟩),
      (pre.flatMap fun v => (lookup (getenv "BHT_APIKEY") v).syns).foldl println ""⟩
    hw hbad
  rw [hrun, htr, hex, hout]
  refine ⟨rfl, by simp, ?_, ?_, ?_⟩
  · simp [lookups_append, lookups_blocks, lookups]
  · simp [printed_append, printed_blocks, printed, BigHugh.Synonyms]
  · simp [foldl_println]

/-- Witness of `C2_fatal_at_first_failure`: the second of three words has no
synonym. -/
theorem C2_fatal_at_first_failure_witness :
    (main (fun _ => "key") (fun _ x => if x = "nonexistentword123" then
          ⟨[], none⟩ else ⟨["glad", "joyful"], none⟩)
          (["happy"] ++ "nonexistentword123" :: ["sad"])).outcome.exitCode = 1
      ∧ lookups (main (fun _ => "key") (fun _ x => if x = "nonexistentword123" then
          ⟨[], none⟩ else ⟨["glad", "joyful"], none⟩)
          (["happy"] ++ "nonexistentword123" :: ["sad"])).trace
          = ["happy", "nonexistentword123"]
      ∧ (main (fun _ => "key") (fun _ x => if x = "nonexistentword123" then
          ⟨[], none⟩ else ⟨["glad", "joyful"], none⟩)
          (["happy"] ++ "nonexistentword123" :: ["sad"])).outcome.stdout
          = "glad\njoyful\n" :=
  have h := C2_fatal_at_first_failure (fun _ => "key")
    (fun _ x => if x = "nonexistentword123" then ⟨[], none⟩ else ⟨["glad", "joyful"], none⟩)
    ["happy"] "nonexistentword123" ["sad"] (by decide) (by decide) (by decide)
  ⟨h.1, h.2.2.1, h.2.2.2.2⟩

/-- C3, counterexample: every lookup succeeds, but the second line is 65536
bytes long; the Scanner stops there, so only the first line is looked up and
only its synonym is printed. -/
theorem C3_counterexample :
    (∀ w ∈ ["happy", String.mk (List.replicate 65536 'a'), "sad"],
        succeeds ((fun _ _ => (⟨["glad"], none⟩ : LookupResult)) "key" w))
      ∧ main (fun _ => "key") (fun _ _ => ⟨["glad"], none⟩)
          ["happy", String.mk (List.replicate 65536 'a'), "sad"]
        = ⟨⟨0, "glad\n", ""⟩, [.lookup "happy", .print "glad"]⟩
      ∧ lookups (main (fun _ => "key") (fun _ _ => ⟨["glad"], none⟩)
          ["happy", String.mk (List.replicate 65536 'a'), "sad"]).trace
        ≠ ["happy", String.mk (List.replicate 65536 'a'), "sad"] := by
  have hrun : main (fun _ => "key") (fun _ _ => ⟨["glad"], none⟩)
      ["happy", String.mk (List.replicate 65536 'a'), "sad"]
      = ⟨⟨0, "glad\n", ""⟩, [.lookup "happy", .print "glad"]⟩ := by
    simp only [main]
    rw [scanLoop_cons_good _ _ _ _ (by decide) (by decide),
      scanLoop_cons_long _ _ _ _ (Nat.le_trans (by decide : maxScanTokenSize ≤ 65536)
      (Nat.le_of_eq (utf8ByteSize_replicate 65536).symm))]
    decide
  refine ⟨fun _ _ => ⟨rfl, List.cons_ne_nil _ _⟩, hrun, ?_⟩
  rw [hrun]
  intro h
  have hlen := congrArg List.length h
  revert hlen
  decide

/-- C3, as amended: when every input line is shorter than 65536 bytes and
the lookup of every line succeeds with at least one synonym, the run ends
cleanly with exit code 0 and an empty log, every line is looked up exactly
once in input order, and standard output is the synonyms of the lines, in
input order and in returned order, each followed by a newline. -/
theorem C3_all_found (getenv : String → String)
    (lookup : String → String → LookupResult) (stdin : List String)
    (h : ∀ w ∈ stdin, w.utf8ByteSize < maxScanTokenSize
      ∧ succeeds (lookup (getenv "BHT_APIKEY") w)) :
    main getenv lookup stdin
        = ⟨⟨0, textOf (stdin.flatMap fun w => (lookup (getenv "BHT_APIKEY") w).syns), ""⟩,
            stdin.flatMap (block ⟨getenv "BHT_APIKEY", lookup⟩)⟩
      ∧ lookups (main getenv lookup stdin).trace = stdin
      ∧ printed (main getenv lookup stdin).trace
          = stdin.flatMap (fun w => (lookup (getenv "BHT_APIKEY") w).syns) := by
  have hrun : main getenv lookup stdin
      = ⟨⟨0, textOf (stdin.flatMap fun w => (lookup (getenv "BHT_APIKEY") w).syns), ""⟩,
          stdin.flatMap (block ⟨getenv "BHT_APIKEY", lookup⟩)⟩ := by
    have := scanLoop_good_prefix ⟨getenv "BHT_APIKEY", lookup⟩ stdin [] ⟨[], ""⟩ h
    rw [List.append_nil] at this
    simp only [main, this, scanLoop, List.nil_append, foldl_println, BigHugh.Synonyms]
    simp
  rw [hrun]
  refine ⟨rfl, lookups_blocks _ stdin, ?_⟩
  simp [printed_blocks, BigHugh.Synonyms]

/-- Witness of `C3_all_found` on two words that both have synonyms. -/
theorem C3_all_found_witness :
    main (fun _ => "key") (fun _ x => if x = "happy" then ⟨["glad", "joyful"], none⟩
        else ⟨["unhappy"], none⟩) ["happy", "sad"]
      = ⟨⟨0, "glad\njoyful\nunhappy\n", ""⟩,
          [.lookup "happy", .print "glad", .print "joyful", .lookup "sad",
            .print "unhappy"]⟩ :=
  (C3_all_found (fun _ => "key") (fun _ x => if x = "happy" then
    ⟨["glad", "joyful"], none⟩ else ⟨["unhappy"], none⟩) ["happy", "sad"]
    (by decide)).1

/-- C7: on empty standard input the program looks nothing up, prints nothing,
logs nothing and ends with exit code 0, whatever the lookup function and the
environment are. -/
theorem C7_empty_input (getenv : String → String)
    (lookup : String → String → LookupResult) :
    main getenv lookup [] = ⟨⟨0, "", ""⟩, []⟩
      ∧ lookups (main getenv lookup []).trace = []
      ∧ printed (main getenv lookup []).trace = [] :=
  ⟨rfl, rfl, rfl⟩

/-- The trace of a run continues the trace of the state it starts from. -/
theorem scanLoop_trace (t : BigHugh) (ws : List String) (st : State) :
    (scanLoop t ws st).trace = st.trace ++ (scanLoop t ws ⟨[], ""⟩).trace := by
  induction ws generalizing st with
  | nil => simp [scanLoop]
  | cons w rest ih =>
    by_cases hlong : maxScanTokenSize ≤ w.utf8ByteSize
    · rw [scanLoop_cons_long t w rest st hlong, scanLoop_cons_long t w rest ⟨[], ""⟩ hlong]
      simp
    · have hshort : w.utf8ByteSize < maxScanTokenSize := Nat.not_le.mp hlong
      by_cases hw : succeeds (t.Synonyms w)
      · rw [scanLoop_cons_good t w rest st hshort hw,
          scanLoop_cons_good t w rest ⟨[], ""⟩ hshort hw,
          ih ⟨st.trace ++ block t w, _⟩, ih ⟨[] ++ block t w, _⟩]
        simp
      · rw [(scanLoop_cons_bad t w rest st hshort hw).1,
          (scanLoop_cons_bad t w rest ⟨[], ""⟩ hshort hw).1]
        simp

/-- A lookup event found after a run of print events lies behind all of them. -/
theorem split_after_prints (syns : List String) (t1 t2 tail : List Event)
    (w : String) (h : t1 ++ Event.lookup w :: t2 = syns.map Event.print ++ tail) :
    ∃ t3, t1 = syns.map Event.print ++ t3 ∧ t3 ++ Event.lookup w :: t2 = tail := by
  induction syns generalizing t1 with
  | nil => exact ⟨t1, rfl, h⟩
  | cons s rest ih =>
    cases t1 with
    | nil => simp at h
    | cons e t1r =>
      simp only [List.map_cons, List.cons_append, List.cons.injEq] at h
      obtain ⟨he, ht⟩ := h
      obtain ⟨t3, h3, h4⟩ := ih t1r ht
      exact ⟨t3, by rw [he, h3]; rfl, h4⟩

/-- At every lookup event of a run from the empty state, the events before it
are the full blocks of the first input words, as many as lookups were made
before, and the word looked up is the next input word. -/
theorem scanLoop_before_lookup (t : BigHugh) (ws : List String)
    (t1 t2 : List Event) (w : String)
    (h : (scanLoop t ws ⟨[], ""⟩).trace = t1 ++ Event.lookup w :: t2) :
    t1 = (ws.take (lookups t1).length).flatMap (block t)
      ∧ ws[(lookups t1).length]? = some w := by
  induction ws generalizing t1 with
  | nil => simp [scanLoop] at h
  | cons v vs ih =>
    by_cases hlong : maxScanTokenSize ≤ v.utf8ByteSize
    · rw [scanLoop_cons_long t v vs ⟨[], ""⟩ hlong] at h
      simp at h
    · have hshort : v.utf8ByteSize < maxScanTokenSize := Nat.not_le.mp hlong
      by_cases hv : succeeds (t.Synonyms v)
      · rw [scanLoop_cons_good t v vs ⟨[], ""⟩ hshort hv, scanLoop_trace] at h
        cases t1 with
        | nil =>
          simp only [block, List.nil_append, List.cons_append, List.cons.injEq,
            Event.lookup.injEq] at h
          simp [lookups, h.1]
        | cons e t1r =>
          simp only [block, List.nil_append, List.cons_append, List.cons.injEq,
            List.append_assoc] at h
          obtain ⟨he, ht⟩ := h
          obtain ⟨t3, h3, h4⟩ := split_after_prints _ t1r t2 _ w ht.symm
          obtain ⟨ih1, ih2⟩ := ih t3 h4.symm
          have hcount : (lookups (e :: t1r)).length = (lookups t3).length + 1 := by
            rw [← he, h3]
            simp [lookups, lookups_append, lookups_prints]
          rw [hcount]
          refine ⟨?_, by simpa using ih2⟩
          rw [List.take_succ_cons, List.flatMap_cons, ← ih1, ← he, h3]
          rfl
      · rw [(scanLoop_cons_bad t v vs ⟨[], ""⟩ hshort hv).1] at h
        cases t1 with
        | nil =>
          simp only [List.nil_append, List.cons.injEq, Event.lookup.injEq] at h
          simp [lookups, h.1]
        | cons e t1r =>
          simp only [List.nil_append, List.cons_append, List.cons.injEq] at h
          have := h.2
          simp at this

/-- C4: in the trace of every run, at each lookup event the events before it
are exactly the lookups of the earlier input words, each followed by the
prints of all the synonyms returned for it, and the word looked up is the next
input word; so every synonym returned for a word is printed before the next
word is looked up. For the input happy, nonexistentword123 and a lookup that
returns glad and joyful for happy, the trace starts with the lookup of happy,
the prints of glad and joyful and the lookup of nonexistentword123, in this
order. -/
theorem C4_prints_before_next_lookup (getenv : String → String)
    (lookup : String → String → LookupResult) (stdin : List String) :
    (∀ t1 w t2, (main getenv lookup stdin).trace = t1 ++ Event.lookup w :: t2 →
        t1 = (stdin.take (lookups t1).length).flatMap (block ⟨getenv "BHT_APIKEY", lookup⟩)
          ∧ stdin[(lookups t1).length]? = some w)
      ∧ (lookup (getenv "BHT_APIKEY") "happy" = ⟨["glad", "joyful"], none⟩ →
          ∃ rest, (main getenv lookup ["happy", "nonexistentword123"]).trace
            = [.lookup "happy", .print "glad", .print "joyful",
                .lookup "nonexistentword123"] ++ rest) := by
  refine ⟨fun t1 w t2 h => ?_, fun hh => ?_⟩
  · exact scanLoop_before_lookup ⟨getenv "BHT_APIKEY", lookup⟩ stdin t1 t2 w h
  · have hgood : succeeds ((⟨getenv "BHT_APIKEY", lookup⟩ : BigHugh).Synonyms "happy") := by
      simp [BigHugh.Synonyms, hh, succeeds]
    have hs1 : "happy".utf8ByteSize < maxScanTokenSize := by decide
    have hs2 : "nonexistentword123".utf8ByteSize < maxScanTokenSize := by decide
    by_cases hn : succeeds
        ((⟨getenv "BHT_APIKEY", lookup⟩ : BigHugh).Synonyms "nonexistentword123")
    · refine ⟨(lookup (getenv "BHT_APIKEY") "nonexistentword123").syns.map .print, ?_⟩
      simp only [main]
      rw [scanLoop_cons_good _ _ _ _ hs1 hgood, scanLoop_cons_good _ _ _ _ hs2 hn]
      simp [scanLoop, block, BigHugh.Synonyms, hh]
    · refine ⟨[], ?_⟩
      simp only [main]
      rw [scanLoop_cons_good _ _ _ _ hs1 hgood, (scanLoop_cons_bad _ _ _ _ hs2 hn).1]
      simp [block, BigHugh.Synonyms, hh]

/-- Witness of `C4_prints_before_next_lookup`: the run of the example, split
at the lookup of the second word. -/
theorem C4_prints_before_next_lookup_witness :
    [Event.lookup "happy", .print "glad", .print "joyful"]
        = (["happy", "nonexistentword123"].take
            (lookups [Event.lookup "happy", .print "glad", .print "joyful"]).length).flatMap
            (block ⟨(fun _ => "key") "BHT_APIKEY", fun _ x =>
              if x = "happy" then ⟨["glad", "joyful"], none⟩ else ⟨[], none⟩⟩)
      ∧ ["happy", "nonexistentword123"][(lookups
          [Event.lookup "happy", .print "glad", .print "joyful"]).length]?
          = some "nonexistentword123" :=
  (C4_prints_before_next_lookup (fun _ => "key")
    (fun _ x => if x = "happy" then ⟨["glad", "joyful"], none⟩ else ⟨[], none⟩)
    ["happy", "nonexistentword123"]).1
    [.lookup "happy", .print "glad", .print "joyful"] "nonexistentword123" [] (by decide)

end Synonyms
